import Mathlib

/-!
Verification development for the stockai2api gateway (src/index.ts).

The development shallowly embeds the stream-translation engine of the
gateway: the framing decoder (carry-over buffer split on the newline
character), the SSE event extractor, the upstream event classifier
(parseUpstreamChunk), the streaming re-encoder (customStream) and the
non-streaming aggregator, plus the request sanitizer, the authorization
gate and the timeout-timer control flow.

Modelling conventions:
- JavaScript strings are modelled as List Char.  Upstream byte chunks are
  modelled as the text they decode to (TextDecoder with the stream flag
  reassembles split multi-byte sequences, so every byte-level split is a
  character-level split of the decoded text by the time the framing code
  sees it).
- JSON.parse and the JS dynamic values it yields are modelled by the Json
  inductive and the executable jsonParse function below.  JS truthiness
  and JS string coercion are modelled by truthy and jsToString.
- Exceptions are modelled by Option / Except results.
-/

/-! ## JS string helpers -/

/-- Concatenation of a list of strings, used to state that the chunked
    pipeline only depends on the joined upstream text. -/
def joinAll : List (List Char) → List Char
  | [] => []
  | x :: xs => x ++ joinAll xs

/-- Separator join, modelling the JS Array.prototype.join call. -/
def joinSep (sep : Char) : List (List Char) → List Char
  | [] => []
  | [x] => x
  | x :: xs => x ++ sep :: joinSep sep xs

/-- Whitespace recognized by the JS String.prototype.trim call (the
    common members; exotic Unicode space separators are omitted from the
    model, none of the protocol constants contain them). -/
def isJsSpace (c : Char) : Bool :=
  c = ' ' ∨ c = '\t' ∨ c = '\n' ∨ c = '\r' ∨
  c = Char.ofNat 11 ∨ c = Char.ofNat 12 ∨ c = Char.ofNat 160 ∨ c = Char.ofNat 65279

/-- Model of the JS trim() call on line payloads (src/index.ts lines 238, 307). -/
def jsTrim (s : List Char) : List Char :=
  ((s.dropWhile isJsSpace).reverse.dropWhile isJsSpace).reverse

/-! ## Framing decoder

The source keeps a carry-over buffer and, on each upstream chunk, runs
    buffer += decoder.decode(value, { stream: true });
    const lines = buffer.split('\n');
    buffer = lines.pop() || "";
(src/index.ts lines 232-234 and 301-303).  splitStep models one
split-and-pop round: it returns the complete lines and the trailing
fragment that becomes the new buffer. -/

def splitStep : List Char → List (List Char) × List Char
  | [] => ([], [])
  | c :: cs =>
    match splitStep cs with
    | (ls, t) =>
      if c = '\n' then ([] :: ls, t)
      else
        match ls with
        | [] => ([], c :: t)
        | l :: r => ((c :: l) :: r, t)

/-- The complete lines of one split-and-pop round. -/
def splitLines (s : List Char) : List (List Char) := (splitStep s).1

/-- The trailing fragment of one split-and-pop round (the new buffer). -/
def splitRest (s : List Char) : List Char := (splitStep s).2

/-- The complete lines produced by feeding the chunks one by one through
    the carry-over buffer, exactly as both code paths do; the trailing
    fragment left when the upstream ends is discarded by the source. -/
def feedLines (buf : List Char) : List (List Char) → List (List Char)
  | [] => []
  | c :: cs => splitLines (buf ++ c) ++ feedLines (splitRest (buf ++ c)) cs

/-! ## JSON values and JS dynamic semantics -/

/-- JSON values as produced by JSON.parse.  Numbers keep their source
    lexeme; none of the verified properties depend on float arithmetic. -/
inductive Json
  | null
  | bool (b : Bool)
  | num (lex : List Char)
  | str (s : List Char)
  | arr (xs : List Json)
  | obj (fields : List (List Char × Json))

/-- Whether a JSON number lexeme denotes zero: no nonzero digit occurs in
    its significand (the part before any exponent marker). -/
def numIsZero (lex : List Char) : Bool :=
  ((lex.takeWhile fun c => ¬ (c = 'e' ∨ c = 'E')).filter Char.isDigit).all fun c => c = '0'

/-- JS truthiness of a parsed JSON value: null, false, numeric zero and
    the empty string are falsy; every array and object is truthy. -/
def truthy : Json → Bool
  | Json.null => false
  | Json.bool b => b
  | Json.num lex => ! numIsZero lex
  | Json.str s => ! s.isEmpty
  | Json.arr _ => true
  | Json.obj _ => true

/-- Truthiness of a possibly-absent property (undefined is falsy). -/
def truthyOpt : Option Json → Bool
  | none => false
  | some j => truthy j

/-- Last-wins lookup: JSON.parse assigns duplicate keys in order, so the
    last occurrence is the one observed. -/
def lookupLast (key : List Char) : List (List Char × Json) → Option Json
  | [] => none
  | (k, v) :: rest =>
    match lookupLast key rest with
    | some r => some r
    | none => if k = key then some v else none

/-- JS property access on a parsed JSON value; on non-objects the result
    is undefined (none).  Property access on null throws in JS, but every
    such access in the source sits inside a try block whose catch drops
    the event, which is observably the same as none here. -/
def getField (j : Json) (key : List Char) : Option Json :=
  match j with
  | Json.obj fs => lookupLast key fs
  | _ => none

/-- Rendering of a number lexeme under JS string coercion.  Integer
    lexemes are canonical in JSON (no leading zeros), so they render as
    themselves, except that negative zero renders as 0.  Lexemes with a
    fraction or exponent are kept verbatim: their exact JS float
    rendering is outside the model and no claim depends on it. -/
def numLexToString (lex : List Char) : List Char :=
  if lex.any fun c => c = '.' ∨ c = 'e' ∨ c = 'E' then lex
  else if numIsZero lex then ['0']
  else lex

/-- Fuel-bounded JS ToString coercion of a parsed JSON value, as used by
    the += accumulation in the non-streaming path.  Arrays render as the
    comma join of their elements with null elements rendering empty, and
    objects render as the fixed object tag, following the JS defaults.
    The fuel only limits array nesting depth; jsToString supplies a depth
    bound far beyond anything a JS engine would survive. -/
def jsToStringF : Nat → Json → List Char
  | _, Json.null => "null".toList
  | _, Json.bool true => "true".toList
  | _, Json.bool false => "false".toList
  | _, Json.num lex => numLexToString lex
  | _, Json.str s => s
  | fuel + 1, Json.arr xs =>
    joinSep ',' (xs.map fun x =>
      match x with
      | Json.null => []
      | y => jsToStringF fuel y)
  | 0, Json.arr _ => []
  | _, Json.obj _ => "[object Object]".toList

/-- JS ToString coercion of a parsed JSON value. -/
def jsToString (j : Json) : List Char := jsToStringF 1000000 j

/-! ## JSON.parse model

An executable recursive-descent parser for the JSON grammar accepted by
JSON.parse: the four whitespace characters, null, booleans, numbers,
strings with the standard escapes, arrays and objects.  Unpaired
surrogate escapes are outside the Char type and map to the null
character; no protocol constant uses them. -/

/-- JSON whitespace (space, tab, line feed, carriage return). -/
def isJsonWs (c : Char) : Bool :=
  c = ' ' ∨ c = '\t' ∨ c = '\n' ∨ c = '\r'

def skipWs (s : List Char) : List Char := s.dropWhile isJsonWs

def hexVal (c : Char) : Option Nat :=
  if '0' ≤ c ∧ c ≤ '9' then some (c.toNat - '0'.toNat)
  else if 'a' ≤ c ∧ c ≤ 'f' then some (c.toNat - 'a'.toNat + 10)
  else if 'A' ≤ c ∧ c ≤ 'F' then some (c.toNat - 'A'.toNat + 10)
  else none

/-- Parse the body of a JSON string literal (after the opening quote),
    returning the decoded text and the input after the closing quote. -/
def parseStringBody : Nat → List Char → Option (List Char × List Char)
  | 0, _ => none
  | _ + 1, [] => none
  | fuel + 1, c :: cs =>
    if c = '"' then some ([], cs)
    else if c = '\\' then
      match cs with
      | [] => none
      | e :: cs2 =>
        if e = '"' ∨ e = '\\' ∨ e = '/' then
          match parseStringBody fuel cs2 with
          | some (s, r) => some (e :: s, r)
          | none => none
        else if e = 'b' ∨ e = 'f' ∨ e = 'n' ∨ e = 'r' ∨ e = 't' then
          let ch : Char :=
            if e = 'b' then Char.ofNat 8
            else if e = 'f' then Char.ofNat 12
            else if e = 'n' then '\n'
            else if e = 'r' then '\r'
            else '\t'
          match parseStringBody fuel cs2 with
          | some (s, r) => some (ch :: s, r)
          | none => none
        else if e = 'u' then
          match cs2 with
          | h1 :: h2 :: h3 :: h4 :: rest =>
            match hexVal h1, hexVal h2, hexVal h3, hexVal h4 with
            | some a, some b, some c3, some d =>
              match parseStringBody fuel rest with
              | some (s, r) => some (Char.ofNat (((a * 16 + b) * 16 + c3) * 16 + d) :: s, r)
              | none => none
            | _, _, _, _ => none
          | _ => none
        else none
    else if c.toNat < 32 then none
    else
      match parseStringBody fuel cs with
      | some (s, r) => some (c :: s, r)
      | none => none

def takeDigits (s : List Char) : List Char × List Char :=
  (s.takeWhile Char.isDigit, s.dropWhile Char.isDigit)

def parseIntPart : List Char → Option (List Char × List Char)
  | [] => none
  | c :: cs =>
    if c = '0' then some (['0'], cs)
    else if c.isDigit then some (c :: (takeDigits cs).1, (takeDigits cs).2)
    else none

def parseFracPart (s : List Char) : Option (List Char × List Char) :=
  match s with
  | '.' :: cs =>
    match takeDigits cs with
    | ([], _) => none
    | (ds, r) => some ('.' :: ds, r)
  | _ => some ([], s)

def parseExpPart (s : List Char) : Option (List Char × List Char) :=
  match s with
  | [] => some ([], [])
  | c :: cs =>
    if c = 'e' ∨ c = 'E' then
      match cs with
      | s2 :: r2 =>
        if s2 = '+' ∨ s2 = '-' then
          match takeDigits r2 with
          | ([], _) => none
          | (ds, r) => some (c :: s2 :: ds, r)
        else
          match takeDigits cs with
          | ([], _) => none
          | (ds, r) => some (c :: ds, r)
      | [] => none
    else some ([], c :: cs)

/-- Parse a JSON number, keeping its lexeme. -/
def parseNumberLex (s : List Char) : Option (List Char × List Char) :=
  match s with
  | '-' :: s1 =>
    match parseIntPart s1 with
    | none => none
    | some (ip, s2) =>
      match parseFracPart s2 with
      | none => none
      | some (fp, s3) =>
        match parseExpPart s3 with
        | none => none
        | some (ep, s4) => some ('-' :: (ip ++ fp ++ ep), s4)
  | _ =>
    match parseIntPart s with
    | none => none
    | some (ip, s2) =>
      match parseFracPart s2 with
      | none => none
      | some (fp, s3) =>
        match parseExpPart s3 with
        | none => none
        | some (ep, s4) => some (ip ++ fp ++ ep, s4)

/-- Parser mode: a whole value, the members of an object after the
    opening brace, or the elements of an array after the opening bracket. -/
inductive PMode
  | value
  | members
  | elements

/-- Parser result carrier for the three modes. -/
inductive PRes
  | v (j : Json)
  | fields (fs : List (List Char × Json))
  | elems (xs : List Json)

def parseCore : Nat → PMode → List Char → Option (PRes × List Char)
  | 0, _, _ => none
  | fuel + 1, PMode.value, s =>
    match skipWs s with
    | [] => none
    | c :: cs =>
      if c = '"' then
        match parseStringBody (cs.length + 1) cs with
        | some (str, r) => some (PRes.v (Json.str str), r)
        | none => none
      else if c = Char.ofNat 123 then
        match skipWs cs with
        | [] => none
        | c2 :: cs2 =>
          if c2 = Char.ofNat 125 then some (PRes.v (Json.obj []), cs2)
          else
            match parseCore fuel PMode.members (c2 :: cs2) with
            | some (PRes.fields fs, r) => some (PRes.v (Json.obj fs), r)
            | _ => none
      else if c = '[' then
        match skipWs cs with
        | [] => none
        | c2 :: cs2 =>
          if c2 = ']' then some (PRes.v (Json.arr []), cs2)
          else
            match parseCore fuel PMode.elements (c2 :: cs2) with
            | some (PRes.elems xs, r) => some (PRes.v (Json.arr xs), r)
            | _ => none
      else if c = 't' then
        match cs with
        | 'r' :: 'u' :: 'e' :: r => some (PRes.v (Json.bool true), r)
        | _ => none
      else if c = 'f' then
        match cs with
        | 'a' :: 'l' :: 's' :: 'e' :: r => some (PRes.v (Json.bool false), r)
        | _ => none
      else if c = 'n' then
        match cs with
        | 'u' :: 'l' :: 'l' :: r => some (PRes.v Json.null, r)
        | _ => none
      else
        match parseNumberLex (c :: cs) with
        | some (lex, r) => some (PRes.v (Json.num lex), r)
        | none => none
  | fuel + 1, PMode.members, s =>
    match skipWs s with
    | '"' :: cs =>
      match parseStringBody (cs.length + 1) cs with
      | some (key, r1) =>
        match skipWs r1 with
        | ':' :: r2 =>
          match parseCore fuel PMode.value r2 with
          | some (PRes.v v, r3) =>
            match skipWs r3 with
            | [] => none
            | c5 :: r4 =>
              if c5 = ',' then
                match parseCore fuel PMode.members r4 with
                | some (PRes.fields fs, r5) => some (PRes.fields ((key, v) :: fs), r5)
                | _ => none
              else if c5 = Char.ofNat 125 then some (PRes.fields [(key, v)], r4)
              else none
          | _ => none
        | _ => none
      | none => none
    | _ => none
  | fuel + 1, PMode.elements, s =>
    match parseCore fuel PMode.value s with
    | some (PRes.v v, r1) =>
      match skipWs r1 with
      | ',' :: r2 =>
        match parseCore fuel PMode.elements r2 with
        | some (PRes.elems xs, r3) => some (PRes.elems (v :: xs), r3)
        | _ => none
      | ']' :: r2 => some (PRes.elems [v], r2)
      | _ => none
    | _ => none

/-- Model of JSON.parse restricted to a success or failure outcome: a
    whole JSON value followed only by whitespace, or none.  The source
    wraps every JSON.parse call in try/catch and drops failures. -/
def jsonParse (s : List Char) : Option Json :=
  match parseCore (2 * s.length + 2) PMode.value s with
  | some (PRes.v j, r) => if skipWs r = [] then some j else none
  | _ => none

/-! ## Upstream event classifier (src/index.ts lines 205-215) -/

/-- The neutral classified event: a reasoning delta or a content delta,
    carrying the raw delta value from the payload. -/
inductive UpEvent
  | reasoning (content : Json)
  | content (content : Json)

/-- Model of parseUpstreamChunk: emit a reasoning event when the type
    property is the reasoning-delta string and the delta property is
    truthy, a content event when the type property is the text-delta
    string and the delta property is truthy, and nothing otherwise.
    Mirrors the two guarded returns of src/index.ts lines 207-214. -/
def parseUpstreamChunk (data : Json) : Option UpEvent :=
  match getField data ("type".toList), getField data ("delta".toList) with
  | some (Json.str t), some d =>
    if t = "reasoning-delta".toList ∧ truthy d = true then some (UpEvent.reasoning d)
    else if t = "text-delta".toList ∧ truthy d = true then some (UpEvent.content d)
    else none
  | _, _ => none

/-- The SSE data-line marker checked by line.startsWith (lines 237, 306). -/
def dataMarker : List Char := "data: ".toList

/-- Classification of one complete line, shared verbatim by the streaming
    and the non-streaming paths (src/index.ts lines 236-243 and 305-311):
    keep only data-prefixed lines, strip the six-character marker, trim,
    drop empty payloads and the DONE sentinel, parse, classify; parse
    failures are swallowed by the try/catch and yield no event. -/
def classifyLine (line : List Char) : Option UpEvent :=
  if dataMarker.isPrefixOf line then
    let dataStr := jsTrim (line.drop 6)
    if dataStr = [] ∨ dataStr = "[DONE]".toList then none
    else
      match jsonParse dataStr with
      | none => none
      | some data => parseUpstreamChunk data
  else none

/-! ## Streaming re-encoder (src/index.ts lines 222-282)

Emitted output is modelled structurally: one OutItem per enqueue call.
A chunk item stands for one data-framed chat.completion.chunk whose
constant fields (id, object, created, model, index) are fixed per
request; done stands for the literal DONE sentinel line; errorEvent
stands for the data-framed error object built in the catch clause. -/

/-- The delta object of an outbound chunk: empty, or exactly one of the
    content / reasoning_content keys. -/
inductive ChunkDelta
  | empty
  | content (v : Json)
  | reasoning (v : Json)

/-- Building the delta object from a classified event (lines 246-248). -/
def chunkDeltaOf : UpEvent → ChunkDelta
  | UpEvent.content v => ChunkDelta.content v
  | UpEvent.reasoning v => ChunkDelta.reasoning v

/-- The defensive emptiness test of line 250 (Object.keys length zero). -/
def deltaIsEmpty : ChunkDelta → Bool
  | ChunkDelta.empty => true
  | _ => false

inductive OutItem
  | chunk (delta : ChunkDelta) (finish_reason : Option (List Char))
  | done
  | errorEvent (message : List Char) (errType : List Char)

def stopReason : List Char := "stop".toList

def streamErrType : List Char := "stream_error".toList

/-- One classified event becomes one enqueued chunk with a null finish
    reason, unless the defensive emptiness guard skips it (lines 245-260). -/
def emitEvent (e : UpEvent) : Option OutItem :=
  let d := chunkDeltaOf e
  if deltaIsEmpty d = true then none else some (OutItem.chunk d none)

def processLine (line : List Char) : Option OutItem :=
  (classifyLine line).bind emitEvent

def emitLines (ls : List (List Char)) : List OutItem :=
  ls.filterMap processLine

/-- What the start callback enqueues after the read loop: on clean
    upstream end, the terminal stop chunk and the DONE sentinel (lines
    266-274); when the loop was aborted by an error, the single error
    event built in the catch clause (lines 275-277).  In both cases the
    finally clause then closes the outbound stream. -/
def endOfStreamItems (err : Option (List Char)) : List OutItem :=
  match err with
  | none => [OutItem.chunk ChunkDelta.empty (some stopReason), OutItem.done]
  | some m => [OutItem.errorEvent m streamErrType]

/-- The streaming loop: per upstream chunk, run the carry-over split and
    enqueue one chunk per classified event of each complete line; when
    the chunk list is exhausted the upstream read either reports done
    (err none) or throws (err some), selecting the terminal items.
    Mirrors the ReadableStream start callback of src/index.ts 222-282. -/
def customStream (buf : List Char) (err : Option (List Char)) : List (List Char) → List OutItem
  | [] => endOfStreamItems err
  | c :: cs =>
    emitLines (splitLines (buf ++ c)) ++ customStream (splitRest (buf ++ c)) err cs

/-- The content delta value an emitted item carries, when it is a chunk
    whose delta object holds the content key. -/
def contentValOf : OutItem → Option Json
  | OutItem.chunk (ChunkDelta.content v) _ => some v
  | _ => none

/-- The reasoning delta value an emitted item carries, when it is a chunk
    whose delta object holds the reasoning_content key. -/
def reasoningValOf : OutItem → Option Json
  | OutItem.chunk (ChunkDelta.reasoning v) _ => some v
  | _ => none

/-- The content delta values carried by the emitted chunks, in order. -/
def contentDeltaVals (items : List OutItem) : List Json :=
  items.filterMap contentValOf

/-- The reasoning delta values carried by the emitted chunks, in order. -/
def reasoningDeltaVals (items : List OutItem) : List Json :=
  items.filterMap reasoningValOf

def isDoneItem : OutItem → Bool
  | OutItem.done => true
  | _ => false

def isErrorItem : OutItem → Bool
  | OutItem.errorEvent _ _ => true
  | _ => false

def isFinishChunk : OutItem → Bool
  | OutItem.chunk _ (some _) => true
  | _ => false

def isEmptyDeltaChunk : OutItem → Bool
  | OutItem.chunk ChunkDelta.empty _ => true
  | _ => false

/-! ## Non-streaming aggregator (src/index.ts lines 291-347) -/

/-- The two append-only accumulators of the non-streaming path. -/
structure Agg where
  fullText : List Char
  fullReasoning : List Char

/-- Processing one complete line in the non-streaming loop (lines
    305-317): content deltas append to fullText, reasoning deltas append
    to fullReasoning, with the JS += coercion on the delta value. -/
def aggLine (st : Agg) (line : List Char) : Agg :=
  match classifyLine line with
  | some (UpEvent.content v) => { st with fullText := st.fullText ++ jsToString v }
  | some (UpEvent.reasoning v) => { st with fullReasoning := st.fullReasoning ++ jsToString v }
  | none => st

/-- The non-streaming read loop over the upstream chunks (lines 297-319). -/
def runAgg (st : Agg) (buf : List Char) : List (List Char) → Agg
  | [] => st
  | c :: cs => runAgg ((splitLines (buf ++ c)).foldl aggLine st) (splitRest (buf ++ c)) cs

/-- The think-block composite built for non-stream clients (line 324). -/
def thinkWrap (reasoningText contentText : List Char) : List Char :=
  "<think>\n".toList ++ reasoningText ++ "\n</think>\n\n".toList ++ contentText

/-- Final message content: fullText alone when the accumulated reasoning
    is empty (falsy), otherwise the think-wrapped composite (lines 321-325). -/
def finalContentOf (st : Agg) : List Char :=
  if st.fullReasoning = [] then st.fullText else thinkWrap st.fullReasoning st.fullText

structure RespMessage where
  role : List Char
  content : List Char
  reasoning_content : List Char

/-- The non-streaming response fields the claims talk about; id, object,
    created, model and the choice index are constants fixed per request. -/
structure NonStreamResp where
  message : RespMessage
  finish_reason : List Char
  prompt_tokens : Nat
  completion_tokens : Nat
  total_tokens : Nat

/-- The whole non-streaming handler on the upstream chunk sequence
    (src/index.ts lines 291-347). -/
def handleNonStream (cs : List (List Char)) : NonStreamResp :=
  let st := runAgg { fullText := [], fullReasoning := [] } [] cs
  { message :=
      { role := "assistant".toList
        content := finalContentOf st
        reasoning_content := st.fullReasoning }
    finish_reason := stopReason
    prompt_tokens := 0
    completion_tokens := 0
    total_tokens := 0 }

/-! ## Request sanitization (src/index.ts lines 147-175) -/

/-- The filter callback p.type === 'text' run on an array content part:
    property access on a null element throws a TypeError (which aborts
    the whole request), any other non-object is simply not kept. -/
def partKept (p : Json) : Except Unit Bool :=
  match p with
  | Json.null => Except.error ()
  | _ =>
    match getField p ("type".toList) with
    | some (Json.str t) => Except.ok (if t = "text".toList then true else false)
    | _ => Except.ok false

/-- The pure filter predicate the callback computes on every non-null
    part, used to state what the filter keeps when no element is null. -/
def partKeptB (p : Json) : Bool :=
  match getField p ("type".toList) with
  | some (Json.str t) => if t = "text".toList then true else false
  | _ => false

/-- The text a kept part contributes: p.text, with the join call mapping
    null and undefined to the empty string and coercing other values. -/
def partText (p : Json) : List Char :=
  match getField p ("text".toList) with
  | none => []
  | some Json.null => []
  | some v => jsToString v

/-- The parts kept by the filter call, or the thrown TypeError. -/
def keptParts : List Json → Except Unit (List Json)
  | [] => Except.ok []
  | p :: ps =>
    match partKept p with
    | Except.error e => Except.error e
    | Except.ok b =>
      match keptParts ps with
      | Except.error e => Except.error e
      | Except.ok rest => Except.ok (if b then p :: rest else rest)

/-- The content-to-string conversion of lines 155-158: a string content
    is kept as is; an array keeps its text parts joined by the newline
    character; any other truthy value is String-coerced; falsy values
    leave the initial empty string. -/
def contentToStr : Option Json → Except Unit (List Char)
  | some (Json.str s) => Except.ok s
  | some (Json.arr ps) =>
    match keptParts ps with
    | Except.error e => Except.error e
    | Except.ok kept => Except.ok (joinSep '\n' (kept.map partText))
  | some v => Except.ok (if truthy v = true then jsToString v else [])
  | none => Except.ok []

/-- The filter of line 153: the message value and its role property must
    both be truthy. -/
def keepMsg (m : Json) : Bool :=
  truthy m && truthyOpt (getField m ("role".toList))

/-- The role value forwarded for a kept message (present by keepMsg). -/
def roleValOf (m : Json) : Json :=
  match getField m ("role".toList) with
  | some r => r
  | none => Json.null

/-- A sanitized message: the role value and the joined content text that
    becomes the single text part; the freshly generated random id of each
    message is opaque randomness outside the model. -/
structure SanMsg where
  role : Json
  text : List Char

def sanMapM : List Json → Except Unit (List SanMsg)
  | [] => Except.ok []
  | m :: ms =>
    match contentToStr (getField m ("content".toList)) with
    | Except.error e => Except.error e
    | Except.ok s =>
      match sanMapM ms with
      | Except.error e => Except.error e
      | Except.ok rest => Except.ok ({ role := roleValOf m, text := s } :: rest)

/-- The sanitization pipeline of lines 152-165: filter then map. -/
def sanitizeMessages (msgs : List Json) : Except Unit (List SanMsg) :=
  sanMapM (msgs.filter keepMsg)

/-- Outcome of the request preparation phase that precedes any upstream
    contact: a thrown TypeError from sanitization, the thrown error for
    an empty valid-message list (line 167), or the sanitized messages
    from which the upstream payload is built (lines 169-175); the
    upstream fetch of line 183 happens only in the proceed case. -/
inductive ReqOutcome
  | failTypeError
  | failNoMessages
  | proceed (ms : List SanMsg)

def prepareRequest (msgs : List Json) : ReqOutcome :=
  match sanitizeMessages msgs with
  | Except.error _ => ReqOutcome.failTypeError
  | Except.ok [] => ReqOutcome.failNoMessages
  | Except.ok ms => ReqOutcome.proceed ms

/-! ## Authorization and routing (src/index.ts lines 92-118) -/

structure ErrBody where
  message : List Char
  code : Nat

/-- Where the fetch handler sends a request: the CORS preflight response,
    an early rejection carrying a status and error body, one of the two
    routed handlers, or the not-found response.  Only routeChat reaches
    handleChatCompletions and hence the upstream fetch. -/
inductive Dispatch
  | corsPreflight
  | reject (status : Nat) (body : ErrBody)
  | routeModels
  | routeChat
  | notFound

def bearerOf (key : List Char) : List Char := "Bearer ".toList ++ key

/-- The fetch handler dispatch in source order: OPTIONS preflight first;
    then the master-key gate (skipped entirely when the configured key is
    the sentinel string 1); then the two routes; else not found. -/
def serverDispatch (method path : List Char) (authHeader : Option (List Char))
    (masterKey : List Char) : Dispatch :=
  if method = "OPTIONS".toList then Dispatch.corsPreflight
  else if masterKey ≠ "1".toList ∧ authHeader ≠ some (bearerOf masterKey) then
    Dispatch.reject 401 { message := "Unauthorized".toList, code := 401 }
  else if path = "/v1/models".toList then Dispatch.routeModels
  else if path = "/v1/chat/completions".toList ∧ method = "POST".toList then Dispatch.routeChat
  else Dispatch.notFound

/-! ## Timeout-timer control flow (src/index.ts lines 177-194)

Real asynchronous time is outside the embedding; what the source fixes is
the order of the timer operations relative to the phases of the upstream
exchange, and that order decides whether a phase can be interrupted by
the timer at all. -/

/-- The operations of handleChatCompletions that matter for the timeout:
    the timer is armed at line 179, the await of fetch resolves when the
    upstream response headers are in (line 183), the finally clause
    disarms the timer (line 193), and only afterwards is the response
    body read by the streaming or aggregating loop (lines 222-282 or
    291-319) before the outbound response completes. -/
inductive HandlerOp
  | armTimer
  | awaitHeaders
  | disarmTimer
  | readBody
  | respond
deriving DecidableEq

/-- The operation order of handleChatCompletions as written. -/
def handlerOps : List HandlerOp :=
  [HandlerOp.armTimer, HandlerOp.awaitHeaders, HandlerOp.disarmTimer,
   HandlerOp.readBody, HandlerOp.respond]

/-- Whether the timer is armed while the given phase runs: walk the
    operation list tracking the armed state. -/
def timerCovers (armed : Bool) (ph : HandlerOp) : List HandlerOp → Bool
  | [] => false
  | op :: rest =>
    match op with
    | HandlerOp.armTimer => timerCovers true ph rest
    | HandlerOp.disarmTimer => timerCovers false ph rest
    | o => if o = ph then armed else timerCovers armed ph rest

/-! ## Framing lemmas: the carry-over split is chunk-boundary independent -/

lemma splitLines_cons (c : Char) (cs : List Char) :
    splitLines (c :: cs) =
      if c = '\n' then [] :: splitLines cs
      else
        match splitLines cs with
        | [] => []
        | l :: r => (c :: l) :: r := by
  show (splitStep (c :: cs)).1 = _
  simp only [splitStep]
  cases h : splitStep cs with
  | mk ls t =>
    have hls : splitLines cs = ls := by rw [splitLines, h]
    by_cases hc : c = '\n'
    · simp [hc, hls]
    · simp only [hc, if_false, hls]
      cases ls <;> rfl

lemma splitRest_cons (c : Char) (cs : List Char) :
    splitRest (c :: cs) =
      if c = '\n' then splitRest cs
      else
        match splitLines cs with
        | [] => c :: splitRest cs
        | _ :: _ => splitRest cs := by
  show (splitStep (c :: cs)).2 = _
  simp only [splitStep]
  cases h : splitStep cs with
  | mk ls t =>
    have hls : splitLines cs = ls := by rw [splitLines, h]
    have hrt : splitRest cs = t := by rw [splitRest, h]
    by_cases hc : c = '\n'
    · simp [hc, hls, hrt]
    · simp only [hc, if_false, hls, hrt]
      cases ls <;> rfl

lemma splitLines_of_no_nl (s : List Char) (h : '\n' ∉ s) : splitLines s = [] := by
  induction s with
  | nil => rfl
  | cons c cs ih =>
    have hc : ¬ c = '\n' := fun hc => h (hc ▸ List.mem_cons_self c cs)
    have hcs : '\n' ∉ cs := fun hm => h (List.mem_cons_of_mem c hm)
    rw [splitLines_cons, if_neg hc, ih hcs]

lemma splitRest_of_no_nl (s : List Char) (h : '\n' ∉ s) : splitRest s = s := by
  induction s with
  | nil => rfl
  | cons c cs ih =>
    have hc : ¬ c = '\n' := fun hc => h (hc ▸ List.mem_cons_self c cs)
    have hcs : '\n' ∉ cs := fun hm => h (List.mem_cons_of_mem c hm)
    rw [splitRest_cons, if_neg hc, splitLines_of_no_nl cs hcs, ih hcs]

lemma no_nl_splitRest (s : List Char) : '\n' ∉ splitRest s := by
  induction s with
  | nil => simp [splitRest, splitStep]
  | cons c cs ih =>
    rw [splitRest_cons]
    by_cases hc : c = '\n'
    · simpa [hc] using ih
    · simp only [hc, if_false]
      cases h : splitLines cs with
      | nil =>
        intro hm
        rcases List.mem_cons.mp hm with h1 | h2
        · exact hc h1.symm
        · exact ih h2
      | cons l r => exact ih

lemma split_append (a b : List Char) :
    splitLines (a ++ b) = splitLines a ++ splitLines (splitRest a ++ b) ∧
      splitRest (a ++ b) = splitRest (splitRest a ++ b) := by
  induction a with
  | nil => simp [splitLines, splitRest, splitStep]
  | cons c a ih =>
    obtain ⟨ih1, ih2⟩ := ih
    by_cases hc : c = '\n'
    · constructor
      · rw [List.cons_append, splitLines_cons, if_pos hc, ih1,
          splitLines_cons, if_pos hc, splitRest_cons, if_pos hc, List.cons_append]
      · rw [List.cons_append, splitRest_cons, if_pos hc, ih2,
          splitRest_cons, if_pos hc]
    · cases h1 : splitLines a with
      | nil =>
        have hrest : splitRest (c :: a) = c :: splitRest a := by
          rw [splitRest_cons, if_neg hc, h1]
        have hlines : splitLines (c :: a) = [] := by
          rw [splitLines_cons, if_neg hc, h1]
        constructor
        · rw [List.cons_append, splitLines_cons, if_neg hc, ih1, h1, List.nil_append,
            hlines, hrest, List.nil_append, List.cons_append, splitLines_cons, if_neg hc]
        · rw [List.cons_append, splitRest_cons, if_neg hc, ih1, h1, List.nil_append,
            hrest, List.cons_append, splitRest_cons, if_neg hc, ih2]
      | cons l r =>
        have hrest : splitRest (c :: a) = splitRest a := by
          rw [splitRest_cons, if_neg hc, h1]
        have hlines : splitLines (c :: a) = (c :: l) :: r := by
          rw [splitLines_cons, if_neg hc, h1]
        constructor
        · rw [List.cons_append, splitLines_cons, if_neg hc, ih1, h1, hlines, hrest,
            List.cons_append, List.cons_append]
        · rw [List.cons_append, splitRest_cons, if_neg hc, ih1, h1, hrest, ih2,
            List.cons_append]

lemma feedLines_eq_splitLines (cs : List (List Char)) :
    ∀ buf : List Char, '\n' ∉ buf → feedLines buf cs = splitLines (buf ++ joinAll cs) := by
  induction cs with
  | nil =>
    intro buf hbuf
    simp [feedLines, joinAll, splitLines_of_no_nl buf hbuf]
  | cons c cs ih =>
    intro buf hbuf
    have h1 := split_append (buf ++ c) (joinAll cs)
    calc feedLines buf (c :: cs)
        = splitLines (buf ++ c) ++ feedLines (splitRest (buf ++ c)) cs := rfl
      _ = splitLines (buf ++ c) ++ splitLines (splitRest (buf ++ c) ++ joinAll cs) := by
          rw [ih (splitRest (buf ++ c)) (no_nl_splitRest (buf ++ c))]
      _ = splitLines ((buf ++ c) ++ joinAll cs) := (h1.1).symm
      _ = splitLines (buf ++ joinAll (c :: cs)) := by
          show _ = splitLines (buf ++ (c ++ joinAll cs))
          rw [List.append_assoc]

/-! ## Streaming and aggregation lemmas -/

lemma emitLines_append (a b : List (List Char)) :
    emitLines (a ++ b) = emitLines a ++ emitLines b := by
  simp [emitLines, List.filterMap_append]

lemma customStream_eq_emit (cs : List (List Char)) :
    ∀ (buf : List Char) (err : Option (List Char)),
      customStream buf err cs = emitLines (feedLines buf cs) ++ endOfStreamItems err := by
  induction cs with
  | nil => intro buf err; simp [customStream, feedLines, emitLines]
  | cons c cs ih =>
    intro buf err
    show emitLines (splitLines (buf ++ c)) ++ customStream (splitRest (buf ++ c)) err cs = _
    rw [ih, show feedLines buf (c :: cs)
        = splitLines (buf ++ c) ++ feedLines (splitRest (buf ++ c)) cs from rfl,
      emitLines_append, List.append_assoc]

lemma runAgg_eq_foldl (cs : List (List Char)) :
    ∀ (st : Agg) (buf : List Char),
      runAgg st buf cs = (feedLines buf cs).foldl aggLine st := by
  induction cs with
  | nil => intro st buf; rfl
  | cons c cs ih =>
    intro st buf
    show runAgg ((splitLines (buf ++ c)).foldl aggLine st) (splitRest (buf ++ c)) cs = _
    rw [ih, show feedLines buf (c :: cs)
        = splitLines (buf ++ c) ++ feedLines (splitRest (buf ++ c)) cs from rfl,
      List.foldl_append]

lemma processLine_shape (l : List Char) (it : OutItem) (h : processLine l = some it) :
    ∃ v, it = OutItem.chunk (ChunkDelta.content v) none ∨
      it = OutItem.chunk (ChunkDelta.reasoning v) none := by
  unfold processLine at h
  cases hc : classifyLine l with
  | none => rw [hc] at h; simp at h
  | some e =>
    rw [hc] at h
    cases e with
    | content v =>
      refine ⟨v, Or.inl ?_⟩
      have : emitEvent (UpEvent.content v) = some (OutItem.chunk (ChunkDelta.content v) none) := rfl
      rw [Option.some_bind, this] at h
      exact (Option.some.inj h).symm
    | reasoning v =>
      refine ⟨v, Or.inr ?_⟩
      have : emitEvent (UpEvent.reasoning v) = some (OutItem.chunk (ChunkDelta.reasoning v) none) := rfl
      rw [Option.some_bind, this] at h
      exact (Option.some.inj h).symm

lemma emitLines_item_flags (ls : List (List Char)) :
    (emitLines ls).countP isFinishChunk = 0 ∧ (emitLines ls).countP isEmptyDeltaChunk = 0 ∧
      (emitLines ls).countP isDoneItem = 0 ∧ (emitLines ls).countP isErrorItem = 0 := by
  refine ⟨?_, ?_, ?_, ?_⟩ <;>
  · rw [List.countP_eq_zero]
    intro it hmem
    obtain ⟨l, _, hpl⟩ := List.mem_filterMap.mp hmem
    obtain ⟨v, h | h⟩ := processLine_shape l it hpl <;> subst h <;>
      simp [isFinishChunk, isEmptyDeltaChunk, isDoneItem, isErrorItem]

lemma foldl_aggLine_fullText (ls : List (List Char)) :
    ∀ st : Agg,
      (ls.foldl aggLine st).fullText =
        st.fullText ++ joinAll ((contentDeltaVals (emitLines ls)).map jsToString) := by
  induction ls with
  | nil => intro st; simp [emitLines, contentDeltaVals, joinAll]
  | cons l ls ih =>
    intro st
    rw [List.foldl_cons, ih]
    cases hc : classifyLine l with
    | none =>
      have h1 : aggLine st l = st := by simp [aggLine, hc]
      have h2 : processLine l = none := by simp [processLine, hc]
      rw [h1, show emitLines (l :: ls) = emitLines ls by
        simp [emitLines, List.filterMap_cons, h2]]
    | some e =>
      cases e with
      | content v =>
        have h1 : aggLine st l = { st with fullText := st.fullText ++ jsToString v } := by
          simp [aggLine, hc]
        have h2 : emitLines (l :: ls)
            = OutItem.chunk (ChunkDelta.content v) none :: emitLines ls := by
          simp [emitLines, List.filterMap_cons, processLine, hc]
          rfl
        rw [h1, h2]
        simp [contentDeltaVals, List.filterMap_cons, contentValOf, joinAll, List.append_assoc]
      | reasoning v =>
        have h1 : aggLine st l = { st with fullReasoning := st.fullReasoning ++ jsToString v } := by
          simp [aggLine, hc]
        have h2 : emitLines (l :: ls)
            = OutItem.chunk (ChunkDelta.reasoning v) none :: emitLines ls := by
          simp [emitLines, List.filterMap_cons, processLine, hc]
          rfl
        rw [h1, h2]
        simp [contentDeltaVals, List.filterMap_cons, contentValOf]

lemma foldl_aggLine_fullReasoning (ls : List (List Char)) :
    ∀ st : Agg,
      (ls.foldl aggLine st).fullReasoning =
        st.fullReasoning ++ joinAll ((reasoningDeltaVals (emitLines ls)).map jsToString) := by
  induction ls with
  | nil => intro st; simp [emitLines, reasoningDeltaVals, joinAll]
  | cons l ls ih =>
    intro st
    rw [List.foldl_cons, ih]
    cases hc : classifyLine l with
    | none =>
      have h1 : aggLine st l = st := by simp [aggLine, hc]
      have h2 : processLine l = none := by simp [processLine, hc]
      rw [h1, show emitLines (l :: ls) = emitLines ls by
        simp [emitLines, List.filterMap_cons, h2]]
    | some e =>
      cases e with
      | content v =>
        have h1 : aggLine st l = { st with fullText := st.fullText ++ jsToString v } := by
          simp [aggLine, hc]
        have h2 : emitLines (l :: ls)
            = OutItem.chunk (ChunkDelta.content v) none :: emitLines ls := by
          simp [emitLines, List.filterMap_cons, processLine, hc]
          rfl
        rw [h1, h2]
        simp [reasoningDeltaVals, List.filterMap_cons, reasoningValOf]
      | reasoning v =>
        have h1 : aggLine st l = { st with fullReasoning := st.fullReasoning ++ jsToString v } := by
          simp [aggLine, hc]
        have h2 : emitLines (l :: ls)
            = OutItem.chunk (ChunkDelta.reasoning v) none :: emitLines ls := by
          simp [emitLines, List.filterMap_cons, processLine, hc]
          rfl
        rw [h1, h2]
        simp [reasoningDeltaVals, List.filterMap_cons, reasoningValOf, joinAll, List.append_assoc]

/-! ## Classifier lemmas -/

lemma isPrefixOf_self_append (a b : List Char) : a.isPrefixOf (a ++ b) = true := by
  induction a with
  | nil => simp [List.isPrefixOf]
  | cons c a ih => simp [List.isPrefixOf, ih]

lemma classifyLine_data (p : List Char) :
    classifyLine (dataMarker ++ p) =
      (if jsTrim p = [] ∨ jsTrim p = "[DONE]".toList then none
       else
         match jsonParse (jsTrim p) with
         | none => none
         | some data => parseUpstreamChunk data) := by
  have hdrop : (dataMarker ++ p).drop 6 = p := by
    have h6 : dataMarker.length = 6 := rfl
    rw [← h6, List.drop_left]
  unfold classifyLine
  rw [isPrefixOf_self_append, hdrop]
  simp

lemma jsonParse_nil : jsonParse [] = none := rfl

lemma jsonParse_done_sentinel : jsonParse ("[DONE]".toList) = none := rfl

lemma classifyLine_data_parsed (p : List Char) (j : Json)
    (h : jsonParse (jsTrim p) = some j) :
    classifyLine (dataMarker ++ p) = parseUpstreamChunk j := by
  rw [classifyLine_data]
  have h1 : ¬ (jsTrim p = [] ∨ jsTrim p = "[DONE]".toList) := by
    rintro (h1 | h1) <;> rw [h1] at h
    · rw [jsonParse_nil] at h; exact Option.noConfusion h
    · rw [jsonParse_done_sentinel] at h; exact Option.noConfusion h
  rw [if_neg h1, h]

lemma parseUpstreamChunk_reasoning_iff (j : Json) (v : Json) :
    parseUpstreamChunk j = some (UpEvent.reasoning v) ↔
      (getField j ("type".toList) = some (Json.str ("reasoning-delta".toList)) ∧
       getField j ("delta".toList) = some v ∧ truthy v = true) := by
  constructor
  · intro h
    unfold parseUpstreamChunk at h
    split at h
    · rename_i t d heqt heqd
      split_ifs at h with h1 h2
      · obtain ⟨ht, hv⟩ := h1
        have h2v := Option.some.inj h
        injection h2v with hdv
        subst hdv
        exact ⟨by rw [heqt, ht], heqd, hv⟩
      · have h2v := Option.some.inj h
        cases h2v
    · exact Option.noConfusion h
  · rintro ⟨h1, h2, h3⟩
    unfold parseUpstreamChunk
    rw [h1, h2]
    simp [h3]

lemma parseUpstreamChunk_content_iff (j : Json) (v : Json) :
    parseUpstreamChunk j = some (UpEvent.content v) ↔
      (getField j ("type".toList) = some (Json.str ("text-delta".toList)) ∧
       getField j ("delta".toList) = some v ∧ truthy v = true) := by
  constructor
  · intro h
    unfold parseUpstreamChunk at h
    split at h
    · rename_i t d heqt heqd
      split_ifs at h with h1 h2
      · have h2v := Option.some.inj h
        cases h2v
      · obtain ⟨ht, hv⟩ := h2
        have h2v := Option.some.inj h
        injection h2v with hdv
        subst hdv
        exact ⟨by rw [heqt, ht], heqd, hv⟩
    · exact Option.noConfusion h
  · rintro ⟨h1, h2, h3⟩
    unfold parseUpstreamChunk
    rw [h1, h2]
    show (if "text-delta".toList = "reasoning-delta".toList ∧ truthy v = true
        then some (UpEvent.reasoning v)
        else if "text-delta".toList = "text-delta".toList ∧ truthy v = true
        then some (UpEvent.content v)
        else none) = some (UpEvent.content v)
    rw [if_neg fun hco => absurd hco.1 (by decide), if_pos ⟨rfl, h3⟩]

lemma classifyLine_skip (pre post : List (List Char)) (l : List Char)
    (h : classifyLine l = none) :
    (pre ++ l :: post).filterMap classifyLine =
      pre.filterMap classifyLine ++ post.filterMap classifyLine := by
  simp [List.filterMap_append, List.filterMap_cons, h]

/-! ## Sanitization lemmas -/

lemma partKept_of_ne_null (p : Json) (hp : p ≠ Json.null) :
    partKept p = Except.ok (partKeptB p) := by
  cases p with
  | null => exact absurd rfl hp
  | obj fs =>
    show (match getField (Json.obj fs) ("type".toList) with
      | some (Json.str t) => Except.ok (if t = "text".toList then true else false)
      | _ => Except.ok false) = _
    unfold partKeptB
    cases hX : getField (Json.obj fs) ("type".toList) with
    | none => rfl
    | some w => cases w <;> rfl
  | bool b => rfl
  | num lex => rfl
  | str s => rfl
  | arr xs => rfl

lemma keptParts_no_null (ps : List Json) (h : Json.null ∉ ps) :
    keptParts ps = Except.ok (ps.filter partKeptB) := by
  induction ps with
  | nil => rfl
  | cons p ps ih =>
    have hp : p ≠ Json.null := fun he => h (he ▸ List.mem_cons_self p ps)
    have hps : Json.null ∉ ps := fun hm => h (List.mem_cons_of_mem p hm)
    show (match partKept p with
      | Except.error e => Except.error e
      | Except.ok b =>
        match keptParts ps with
        | Except.error e => Except.error e
        | Except.ok rest => Except.ok (if b then p :: rest else rest)) = _
    rw [partKept_of_ne_null p hp, ih hps, List.filter_cons]

lemma keptParts_with_null (ps : List Json) (h : Json.null ∈ ps) :
    keptParts ps = Except.error () := by
  induction ps with
  | nil => cases h
  | cons p ps ih =>
    by_cases hp : p = Json.null
    · subst hp; rfl
    · have hps : Json.null ∈ ps := by
        rcases List.mem_cons.mp h with h1 | h1
        · exact absurd h1.symm hp
        · exact h1
      show (match partKept p with
        | Except.error e => Except.error e
        | Except.ok b =>
          match keptParts ps with
          | Except.error e => Except.error e
          | Except.ok rest => Except.ok (if b then p :: rest else rest)) = _
      rw [partKept_of_ne_null p hp, ih hps]

/-! ## Final message shape lemma -/

lemma thinkWrap_ne_plain (rt ct : List Char) (h : rt ≠ []) : thinkWrap rt ct ≠ ct := by
  intro he
  have hlen := congrArg List.length he
  have h8 : ("<think>\n".toList).length = 8 := rfl
  have h11 : ("\n</think>\n\n".toList).length = 11 := rfl
  rw [thinkWrap, List.length_append, List.length_append, List.length_append,
    h8, h11] at hlen
  have hpos : 0 < rt.length := List.length_pos.mpr h
  omega

/-! ## Claim theorems -/

/-- C1: for every upstream chunk sequence, the concatenation of the content
    deltas emitted by the streaming path (under the JS string coercion that
    both paths apply to delta values; on string deltas the coercion is the
    identity) equals the fullText accumulated by the non-streaming path, and
    the concatenation of the reasoning deltas equals fullReasoning: the two
    modes are equivalent projections of the same classified-event sequence. -/
theorem stream_nonstream_projections_agree (cs : List (List Char)) :
    joinAll ((contentDeltaVals (customStream [] none cs)).map jsToString) =
      (runAgg { fullText := [], fullReasoning := [] } [] cs).fullText ∧
    joinAll ((reasoningDeltaVals (customStream [] none cs)).map jsToString) =
      (runAgg { fullText := [], fullReasoning := [] } [] cs).fullReasoning := by
  have hs := customStream_eq_emit cs [] none
  have ha := runAgg_eq_foldl cs { fullText := [], fullReasoning := [] } []
  constructor
  · rw [hs, ha, foldl_aggLine_fullText, List.nil_append]
    unfold contentDeltaVals
    rw [List.filterMap_append]
    have hterm : (endOfStreamItems none).filterMap contentValOf = [] := rfl
    rw [hterm, List.append_nil]
  · rw [hs, ha, foldl_aggLine_fullReasoning, List.nil_append]
    unfold reasoningDeltaVals
    rw [List.filterMap_append]
    have hterm : (endOfStreamItems none).filterMap reasoningValOf = [] := rfl
    rw [hterm, List.append_nil]

/-- C2: framing is chunk-boundary independent: any two chunkings of the
    same upstream text yield the same sequence of complete lines through
    the carry-over buffer, and hence the same classified events. -/
theorem framing_chunk_boundary_independent (cs ds : List (List Char))
    (h : joinAll cs = joinAll ds) :
    feedLines [] cs = feedLines [] ds ∧
      (feedLines [] cs).filterMap classifyLine =
        (feedLines [] ds).filterMap classifyLine := by
  have h1 := feedLines_eq_splitLines cs [] (by simp)
  have h2 := feedLines_eq_splitLines ds [] (by simp)
  have hl : feedLines [] cs = feedLines [] ds := by
    rw [h1, h2, List.nil_append, List.nil_append, h]
  exact ⟨hl, by rw [hl]⟩

/-- C2 witness: a concrete SSE event split in the middle of its data line
    decodes to the same lines and events as the unsplit text. -/
theorem framing_chunk_boundary_independent_witness :
    joinAll ["data: \x7b\"type\":\"text-delta\",\"delta\":\"Hi\"\x7d\n".toList] =
      joinAll ["data: \x7b\"type\":\"te".toList,
        "xt-delta\",\"delta\":\"Hi\"\x7d\n".toList] ∧
    (feedLines [] ["data: \x7b\"type\":\"text-delta\",\"delta\":\"Hi\"\x7d\n".toList] =
        feedLines [] ["data: \x7b\"type\":\"te".toList,
          "xt-delta\",\"delta\":\"Hi\"\x7d\n".toList] ∧
      (feedLines [] ["data: \x7b\"type\":\"text-delta\",\"delta\":\"Hi\"\x7d\n".toList]).filterMap
          classifyLine =
        (feedLines [] ["data: \x7b\"type\":\"te".toList,
          "xt-delta\",\"delta\":\"Hi\"\x7d\n".toList]).filterMap classifyLine) :=
  ⟨rfl, framing_chunk_boundary_independent _ _ rfl⟩

/-- C3 counterexample: a data payload whose delta is the JSON boolean true
    is not a non-empty delta string, so the claim says it produces no
    event; the code checks only JS truthiness of the delta property and
    does produce a content event carrying the boolean. -/
theorem classify_nonstring_delta_event :
    classifyLine ("data: \x7b\"type\":\"text-delta\",\"delta\":true\x7d".toList) =
      some (UpEvent.content (Json.bool true)) := rfl

/-- C3 (amended): for every data-prefixed payload that parses, a reasoning
    event is produced exactly when the type property is the
    reasoning-delta string and the delta property is present and truthy
    (carrying the raw delta value, of any JSON type), a content event
    exactly when the type property is the text-delta string and the delta
    property is truthy; payloads that fail to parse produce no event and
    never abort: lines yielding no event are skipped and later lines are
    still classified. -/
theorem classifyLine_characterization (p : List Char) (j : Json)
    (h : jsonParse (jsTrim p) = some j) :
    (∀ v, classifyLine (dataMarker ++ p) = some (UpEvent.reasoning v) ↔
      (getField j ("type".toList) = some (Json.str ("reasoning-delta".toList)) ∧
       getField j ("delta".toList) = some v ∧ truthy v = true)) ∧
    (∀ v, classifyLine (dataMarker ++ p) = some (UpEvent.content v) ↔
      (getField j ("type".toList) = some (Json.str ("text-delta".toList)) ∧
       getField j ("delta".toList) = some v ∧ truthy v = true)) ∧
    (∀ q : List Char, jsonParse (jsTrim q) = none →
      classifyLine (dataMarker ++ q) = none) ∧
    (∀ (pre post : List (List Char)) (l : List Char), classifyLine l = none →
      (pre ++ l :: post).filterMap classifyLine =
        pre.filterMap classifyLine ++ post.filterMap classifyLine) := by
  refine ⟨?_, ?_, ?_, fun pre post l hl => classifyLine_skip pre post l hl⟩
  · intro v
    rw [classifyLine_data_parsed p j h]
    exact parseUpstreamChunk_reasoning_iff j v
  · intro v
    rw [classifyLine_data_parsed p j h]
    exact parseUpstreamChunk_content_iff j v
  · intro q hq
    rw [classifyLine_data]
    split_ifs with h1
    · rfl
    · rw [hq]

/-- C3 witness: the characterization applied to a concrete reasoning-delta
    payload. -/
theorem classifyLine_characterization_witness :
    classifyLine (dataMarker ++ "\x7b\"type\":\"reasoning-delta\",\"delta\":\"R\"\x7d".toList) =
      some (UpEvent.reasoning (Json.str ['R'])) :=
  ((classifyLine_characterization
      ("\x7b\"type\":\"reasoning-delta\",\"delta\":\"R\"\x7d".toList)
      (Json.obj [("type".toList, Json.str ("reasoning-delta".toList)),
                 ("delta".toList, Json.str ['R'])]) rfl).1
    (Json.str ['R'])).mpr ⟨rfl, rfl, rfl⟩

/-- C4: in streaming mode without a mid-stream error, every chunk emitted
    for a classified event has a null finish reason and a single-key
    delta (no event chunk carries a finish reason or an empty delta);
    the output is the event chunks followed by exactly one terminal chunk
    with empty delta and stop finish reason and the DONE sentinel; and
    for the two content events Hi and there, exactly three chunks are
    emitted followed by the sentinel. -/
theorem streaming_success_shape :
    (∀ cs : List (List Char),
      customStream [] none cs =
        emitLines (feedLines [] cs) ++
          [OutItem.chunk ChunkDelta.empty (some stopReason), OutItem.done] ∧
      (emitLines (feedLines [] cs)).countP isFinishChunk = 0 ∧
      (emitLines (feedLines [] cs)).countP isEmptyDeltaChunk = 0 ∧
      (customStream [] none cs).countP isFinishChunk = 1 ∧
      (customStream [] none cs).countP isEmptyDeltaChunk = 1 ∧
      (customStream [] none cs).countP isDoneItem = 1) ∧
    customStream [] none
        [("data: \x7b\"type\":\"text-delta\",\"delta\":\"Hi\"\x7d\n\n" ++
          "data: \x7b\"type\":\"text-delta\",\"delta\":\" there\"\x7d\n\n").toList] =
      [OutItem.chunk (ChunkDelta.content (Json.str ("Hi".toList))) none,
       OutItem.chunk (ChunkDelta.content (Json.str (" there".toList))) none,
       OutItem.chunk ChunkDelta.empty (some stopReason), OutItem.done] := by
  constructor
  · intro cs
    have he := customStream_eq_emit cs [] none
    obtain ⟨f1, f2, f3, f4⟩ := emitLines_item_flags (feedLines [] cs)
    refine ⟨he, f1, f2, ?_, ?_, ?_⟩
    · rw [he, List.countP_append, f1]; rfl
    · rw [he, List.countP_append, f2]; rfl
    · rw [he, List.countP_append, f3]; rfl
  · rfl

/-- C5: the non-streaming final message content equals fullText exactly
    when the accumulated reasoning is empty and otherwise equals the
    think-wrapped composite; reasoning_content is always the raw
    accumulated reasoning; the response carries the stop finish reason
    and a zeroed usage object; concretely, reasoning R with content C
    yields the wrapped composite. -/
theorem nonstream_final_message :
    (∀ cs : List (List Char),
      (handleNonStream cs).message.reasoning_content =
        (runAgg { fullText := [], fullReasoning := [] } [] cs).fullReasoning ∧
      ((handleNonStream cs).message.content =
          (runAgg { fullText := [], fullReasoning := [] } [] cs).fullText ↔
        (runAgg { fullText := [], fullReasoning := [] } [] cs).fullReasoning = []) ∧
      ((runAgg { fullText := [], fullReasoning := [] } [] cs).fullReasoning ≠ [] →
        (handleNonStream cs).message.content =
          thinkWrap (runAgg { fullText := [], fullReasoning := [] } [] cs).fullReasoning
            (runAgg { fullText := [], fullReasoning := [] } [] cs).fullText) ∧
      (handleNonStream cs).finish_reason = stopReason ∧
      (handleNonStream cs).prompt_tokens = 0 ∧
      (handleNonStream cs).completion_tokens = 0 ∧
      (handleNonStream cs).total_tokens = 0) ∧
    handleNonStream
        [("data: \x7b\"type\":\"reasoning-delta\",\"delta\":\"R\"\x7d\n" ++
          "data: \x7b\"type\":\"text-delta\",\"delta\":\"C\"\x7d\n").toList] =
      { message :=
          { role := "assistant".toList
            content := "<think>\nR\n</think>\n\nC".toList
            reasoning_content := ['R'] }
        finish_reason := stopReason
        prompt_tokens := 0
        completion_tokens := 0
        total_tokens := 0 } := by
  have hiff : ∀ st : Agg, (finalContentOf st = st.fullText ↔ st.fullReasoning = []) := by
    intro st
    constructor
    · intro hc
      by_contra hne
      unfold finalContentOf at hc
      rw [if_neg hne] at hc
      exact thinkWrap_ne_plain st.fullReasoning st.fullText hne hc
    · intro he
      unfold finalContentOf
      rw [if_pos he]
  have himp : ∀ st : Agg, st.fullReasoning ≠ [] →
      finalContentOf st = thinkWrap st.fullReasoning st.fullText := by
    intro st hne
    unfold finalContentOf
    rw [if_neg hne]
  constructor
  · intro cs
    exact ⟨rfl, hiff _, himp _, rfl, rfl, rfl, rfl⟩
  · rfl

/-- C5 witness: the think-wrap branch of the theorem discharged at a
    concrete chunk list with non-empty reasoning. -/
theorem nonstream_final_message_witness :
    (handleNonStream ["data: \x7b\"type\":\"reasoning-delta\",\"delta\":\"why\"\x7d\n".toList]).message.content =
      thinkWrap
        (runAgg { fullText := [], fullReasoning := [] } []
          ["data: \x7b\"type\":\"reasoning-delta\",\"delta\":\"why\"\x7d\n".toList]).fullReasoning
        (runAgg { fullText := [], fullReasoning := [] } []
          ["data: \x7b\"type\":\"reasoning-delta\",\"delta\":\"why\"\x7d\n".toList]).fullText :=
  ((nonstream_final_message.1
    ["data: \x7b\"type\":\"reasoning-delta\",\"delta\":\"why\"\x7d\n".toList]).2.2.1
    (by decide))

/-- C6: the upstream timeout timer is armed before the fetch await and
    disarmed in the finally clause as soon as the response headers have
    arrived, so it does cover the headers phase but does not cover the
    body-streaming phase in which the upstream thinking and answer deltas
    arrive; the claim that it governs the entire thinking-plus-answering
    duration contradicts the operation order of the source. -/
theorem timeout_not_covering_body :
    timerCovers false HandlerOp.readBody handlerOps = false ∧
    timerCovers false HandlerOp.awaitHeaders handlerOps = true ∧
    timerCovers false HandlerOp.respond handlerOps = false :=
  ⟨rfl, rfl, rfl⟩

/-- C7: when the upstream read loop is aborted by an error after any
    number of chunks, the outbound items are the event chunks for what
    arrived followed by exactly one error event carrying the message and
    the stream_error type; a clean run emits no error event.  The finally
    clause then closes the outbound stream in either case. -/
theorem stream_error_event (cs : List (List Char)) (m : List Char) :
    customStream [] (some m) cs =
      emitLines (feedLines [] cs) ++ [OutItem.errorEvent m streamErrType] ∧
    (customStream [] (some m) cs).countP isErrorItem = 1 ∧
    (customStream [] none cs).countP isErrorItem = 0 := by
  have he := customStream_eq_emit cs [] (some m)
  have hn := customStream_eq_emit cs [] none
  obtain ⟨_, _, _, f4⟩ := emitLines_item_flags (feedLines [] cs)
  refine ⟨he, ?_, ?_⟩
  · rw [he, List.countP_append, f4]; rfl
  · rw [hn, List.countP_append, f4]; rfl

/-- C10: after a mid-stream error the single error event is the last item
    on the channel, with no DONE sentinel and no chunk carrying a finish
    reason anywhere in the output; a clean run instead ends with the DONE
    sentinel: a client observes exactly one of the two terminations. -/
theorem error_path_single_termination (cs : List (List Char)) (m : List Char) :
    (customStream [] (some m) cs).countP isDoneItem = 0 ∧
    (customStream [] (some m) cs).countP isFinishChunk = 0 ∧
    (customStream [] (some m) cs).getLast? = some (OutItem.errorEvent m streamErrType) ∧
    (customStream [] none cs).getLast? = some OutItem.done := by
  have he := customStream_eq_emit cs [] (some m)
  have hn := customStream_eq_emit cs [] none
  obtain ⟨f1, _, f3, _⟩ := emitLines_item_flags (feedLines [] cs)
  refine ⟨?_, ?_, ?_, ?_⟩
  · rw [he, List.countP_append, f3]; rfl
  · rw [he, List.countP_append, f1]; rfl
  · rw [he]
    exact List.getLast?_concat _
  · rw [hn, show emitLines (feedLines [] cs) ++ endOfStreamItems none
        = (emitLines (feedLines [] cs) ++
            [OutItem.chunk ChunkDelta.empty (some stopReason)]) ++ [OutItem.done] by
      rw [List.append_assoc]; rfl]
    exact List.getLast?_concat _

/-- C8: for any request that is not an OPTIONS preflight, when the
    configured master key is not the sentinel that disables the check and
    the Authorization header differs from the expected bearer value
    (including a missing header), the dispatch is the 401 rejection with
    the Unauthorized error body, and in particular is not the chat route,
    the only path that contacts the upstream. -/
theorem auth_rejects_unauthorized (method path : List Char) (auth : Option (List Char))
    (key : List Char) (hm : method ≠ "OPTIONS".toList) (hk : key ≠ "1".toList)
    (ha : auth ≠ some (bearerOf key)) :
    serverDispatch method path auth key =
      Dispatch.reject 401 { message := "Unauthorized".toList, code := 401 } ∧
    serverDispatch method path auth key ≠ Dispatch.routeChat := by
  have h1 : serverDispatch method path auth key =
      Dispatch.reject 401 { message := "Unauthorized".toList, code := 401 } := by
    unfold serverDispatch
    rw [if_neg hm, if_pos ⟨hk, ha⟩]
  refine ⟨h1, ?_⟩
  rw [h1]
  intro hcon
  exact Dispatch.noConfusion hcon

/-- C8 witness: a GET with no Authorization header under the default
    master key is rejected. -/
theorem auth_rejects_unauthorized_witness :
    serverDispatch ("GET".toList) ("/v1/chat/completions".toList) none
        ("sk-stockai-free".toList) =
      Dispatch.reject 401 { message := "Unauthorized".toList, code := 401 } ∧
    serverDispatch ("GET".toList) ("/v1/chat/completions".toList) none
        ("sk-stockai-free".toList) ≠ Dispatch.routeChat :=
  auth_rejects_unauthorized _ _ _ _ (by decide) (by decide) (by decide)

/-- C9 counterexample: a message content of JSON null is falsy, so the
    code never runs the String coercion and leaves the content empty,
    while the claim says any non-string non-array content is coerced to
    string, which for null would be the four-character string null. -/
theorem content_falsy_not_coerced :
    contentToStr (some Json.null) = Except.ok [] ∧
    jsToString Json.null = "null".toList ∧
    ("null".toList ≠ ([] : List Char)) :=
  ⟨rfl, rfl, by decide⟩

/-- C9 (amended): a string content is kept as is; an array content keeps
    only the parts whose type property is the text string, joined by the
    newline character, provided no element is JSON null, while a null
    element aborts the request with a thrown TypeError; any other truthy
    content is String-coerced and any falsy content (null, false, zero,
    missing) yields the empty string; a message whose role property is
    absent (or falsy) is dropped by the filter; and when zero valid
    messages remain the request fails before the upstream fetch. -/
theorem sanitize_characterization :
    (∀ s : List Char, contentToStr (some (Json.str s)) = Except.ok s) ∧
    (∀ ps : List Json, Json.null ∉ ps →
      contentToStr (some (Json.arr ps)) =
        Except.ok (joinSep '\n' ((ps.filter partKeptB).map partText))) ∧
    (∀ ps : List Json, Json.null ∈ ps →
      contentToStr (some (Json.arr ps)) = Except.error ()) ∧
    (∀ v : Json, truthy v = false → contentToStr (some v) = Except.ok []) ∧
    (∀ v : Json, truthy v = true → (∀ s, v ≠ Json.str s) → (∀ xs, v ≠ Json.arr xs) →
      contentToStr (some v) = Except.ok (jsToString v)) ∧
    contentToStr none = Except.ok [] ∧
    (∀ m : Json, getField m ("role".toList) = none → keepMsg m = false) ∧
    (∀ (m : Json) (pre post : List Json), keepMsg m = false →
      sanitizeMessages (pre ++ m :: post) = sanitizeMessages (pre ++ post)) ∧
    (∀ msgs : List Json, msgs.filter keepMsg = [] →
      prepareRequest msgs = ReqOutcome.failNoMessages) := by
  refine ⟨fun s => rfl, ?_, ?_, ?_, ?_, rfl, ?_, ?_, ?_⟩
  · intro ps h
    show (match keptParts ps with
      | Except.error e => Except.error e
      | Except.ok kept => Except.ok (joinSep '\n' (kept.map partText))) = _
    rw [keptParts_no_null ps h]
  · intro ps h
    show (match keptParts ps with
      | Except.error e => Except.error e
      | Except.ok kept => Except.ok (joinSep '\n' (kept.map partText))) = _
    rw [keptParts_with_null ps h]
  · intro v hv
    cases v with
    | null => rfl
    | bool b =>
      show Except.ok (if truthy (Json.bool b) = true then jsToString (Json.bool b) else []) = _
      rw [hv, if_neg (fun hco => Bool.noConfusion hco)]
    | num lex =>
      show Except.ok (if truthy (Json.num lex) = true then jsToString (Json.num lex) else []) = _
      rw [hv, if_neg (fun hco => Bool.noConfusion hco)]
    | str s =>
      have hs : s = [] := by
        have hb : (! s.isEmpty) = false := hv
        have : s.isEmpty = true := by
          cases hie : s.isEmpty
          · rw [hie] at hb; exact Bool.noConfusion hb
          · rfl
        exact List.isEmpty_iff.mp this
      subst hs
      rfl
    | arr xs => exact Bool.noConfusion hv
    | obj fs => exact Bool.noConfusion hv
  · intro v hv hstr harr
    cases v with
    | null => exact Bool.noConfusion hv
    | bool b =>
      have hb : b = true := hv
      subst hb
      rfl
    | num lex =>
      show Except.ok (if truthy (Json.num lex) = true then jsToString (Json.num lex) else []) = _
      rw [hv, if_pos rfl]
    | str s => exact absurd rfl (hstr s)
    | arr xs => exact absurd rfl (harr xs)
    | obj fs => rfl
  · intro m h
    unfold keepMsg
    rw [h, show truthyOpt none = false from rfl, Bool.and_false]
  · intro m pre post h
    unfold sanitizeMessages
    rw [List.filter_append, List.filter_cons, if_neg (by rw [h]; exact Bool.noConfusion),
      List.filter_append]
  · intro msgs h
    unfold prepareRequest sanitizeMessages
    rw [h]
    rfl

/-- C9 witness: the characterization discharged at concrete inputs - a
    parts array keeping one text part, a null part aborting, a truthy
    boolean content coerced, and an empty message list failing before the
    upstream fetch. -/
theorem sanitize_characterization_witness :
    contentToStr (some (Json.arr
        [Json.obj [("type".toList, Json.str ("text".toList)),
                   ("text".toList, Json.str ("hello".toList))],
         Json.num ['5']])) = Except.ok ("hello".toList) ∧
    contentToStr (some (Json.arr [Json.null])) = Except.error () ∧
    contentToStr (some (Json.bool true)) = Except.ok ("true".toList) ∧
    prepareRequest [Json.obj []] = ReqOutcome.failNoMessages := by
  refine ⟨?_, ?_, ?_, ?_⟩
  · exact sanitize_characterization.2.1 _ (by simp)
  · exact sanitize_characterization.2.2.1 [Json.null] (List.mem_cons_self _ _)
  · exact sanitize_characterization.2.2.2.2.1 (Json.bool true) rfl
      (fun s hcon => Json.noConfusion hcon) (fun xs hcon => Json.noConfusion hcon)
  · exact sanitize_characterization.2.2.2.2.2.2.2.2 [Json.obj []] rfl
